import Mathlib

/-!
Verification of the `ccwc` utility (`src/main.rs`, a Rust reimplementation of `wc`).

The program is shallowly embedded below:

* Strings are Lean `String`s (sequences of Unicode scalar values, exactly the
  values produced by Rust's `str::chars`).  Rust's `str::len` / `bytes().len()`
  is the UTF-8 byte length, modelled by `byteLen` via `charUtf8Size`
  (Rust `char::len_utf8`).
* `rustLines` models `str::lines` (split at `\n`, a `\r` immediately before a
  `\n` is stripped, a final empty segment produced by a trailing `\n` is
  dropped).
* `splitPred` models `str::split` with a character predicate: it splits at
  every matching character and keeps empty pieces; `"".split(p)` yields `[""]`.
* `isRustWhitespace` is Rust's `char::is_whitespace` (the Unicode White_Space
  property, which is what `str::split_whitespace` uses).
* The `wc` function, the per-file loop of `main`, and `--files0-from=`
  handling (`add_input_files`) are translated line by line.  The filesystem is
  an explicit map `Fs` from path to metadata outcome: `none` models an
  `fs::metadata` error (e.g. a nonexistent path), `FsEntry.file` a regular
  file with its contents, `FsEntry.dir` a directory and `FsEntry.other` an
  existing path that is neither (FIFO, device node, ...) — the code only ever
  tests `metadata.is_file()`.
* The option set of `main` is a `std::collections::HashSet`.  Its contents are
  the distinct flags inserted, but its iteration order depends on the
  per-process random hasher seed; the embedding therefore passes the iteration
  order to `runProgram` as an explicit parameter `hashOrder`, constrained in
  the theorems to be a permutation of the set of first-seen distinct flags
  (`dedupFirst` of the mention list).
-/

set_option maxRecDepth 20000

namespace Ccwc

/-- The five CLI metric options of `ccwc` (enum `WcCliOpt` in `main.rs`). -/
inductive WcCliOpt where
  | CountBytes
  | CountCharacters
  | CountLines
  | CountWords
  | MaxLineLength
deriving DecidableEq

/-- `const FMT_DISPLAY_WIDTH: usize = 6` in `main.rs`. -/
def FMT_DISPLAY_WIDTH : Nat := 6

/-- Rust's `format!("{:>width$}", s)`: right-align `s` in `FMT_DISPLAY_WIDTH`
columns, padding with spaces on the left (no padding if already wider). -/
def padDisplay (s : String) : String :=
  String.mk (List.replicate (FMT_DISPLAY_WIDTH - s.length) ' ') ++ s

/-- Rust `char::len_utf8`: the number of bytes of the UTF-8 encoding of a
Unicode scalar value. -/
def charUtf8Size (c : Char) : Nat :=
  if c.toNat < 0x80 then 1
  else if c.toNat < 0x800 then 2
  else if c.toNat < 0x10000 then 3
  else 4

/-- UTF-8 byte length of a character sequence (Rust `str::len`,
`str::bytes().len()`). -/
def byteLen : List Char → Nat
  | [] => 0
  | c :: cs => charUtf8Size c + byteLen cs

/-- `contents.bytes().len()` in the `CountBytes` branch of `wc`. -/
def byteCount (s : String) : Nat := byteLen s.data

/-- `contents.chars().count()` in the `CountCharacters` branch of `wc`. -/
def charCount (s : String) : Nat := s.data.length

/-- Rust `str::split(p)` for a character predicate `p`: split at every
matching character, keeping empty pieces; the empty string yields `[[]]`. -/
def splitPred (p : Char → Bool) : List Char → List (List Char)
  | [] => [[]]
  | c :: cs =>
    if p c then [] :: splitPred p cs
    else
      match splitPred p cs with
      | [] => [[c]]
      | q :: qs => (c :: q) :: qs

/-- Rust `char::is_whitespace`: the Unicode White_Space property. -/
def isRustWhitespace (c : Char) : Bool :=
  let n := c.toNat
  (0x9 ≤ n && n ≤ 0xD) || n = 0x20 || n = 0x85 || n = 0xA0 || n = 0x1680 ||
  (0x2000 ≤ n && n ≤ 0x200A) || n = 0x2028 || n = 0x2029 || n = 0x202F ||
  n = 0x205F || n = 0x3000

/-- Strip one `\r` from the end of a line fragment (used by `rustLines` for
fragments that were terminated by `\n`, modelling the `\r\n` handling of
`str::lines`). -/
def stripCR (l : List Char) : List Char :=
  match l.getLast? with
  | some c => if c = '\r' then l.dropLast else l
  | none => l

/-- Rust `str::lines`: split at `\n`, strip a `\r` directly before each `\n`,
and drop the final empty segment produced by a trailing `\n`.  The final
segment, when non-empty, is kept verbatim (its trailing `\r`, if any, stays). -/
def rustLines (s : String) : List (List Char) :=
  let segs := splitPred (fun c => c = '\n') s.data
  let last := segs.getLastD []
  segs.dropLast.map stripCR ++ (if last.isEmpty then [] else [last])

/-- `contents.lines().count()` in the `CountLines` branch of `wc`. -/
def lineCount (s : String) : Nat := (rustLines s).length

/-- The `MaxLineLength` branch of `wc`: a running `mx = cmp::max(line.len(), mx)`
over `contents.lines()` (note `line.len()` is the byte length). -/
def maxLineLength (s : String) : Nat :=
  (rustLines s).foldl (fun mx line => max (byteLen line) mx) 0

/-- `line.split_whitespace().count()`: Rust `split_whitespace` is
`split(char::is_whitespace)` with empty pieces discarded. -/
def splitWhitespaceCount (l : List Char) : Nat :=
  ((splitPred isRustWhitespace l).filter (fun x => !x.isEmpty)).length

/-- The `CountWords` branch of `wc`: `words += line.split_whitespace().count()`
over `contents.lines()`. -/
def wordCount (s : String) : Nat :=
  (rustLines s).foldl (fun words line => words + splitWhitespaceCount line) 0

/-- The result tuple `(usize, usize, usize, usize, usize)` of `wc`:
`(bytes, chars, lines, max line length, words)` in the source's field order. -/
structure Counts where
  bytes : Nat
  chars : Nat
  lines : Nat
  maxLine : Nat
  words : Nat
deriving DecidableEq

/-- The initial `counts = (0, 0, 0, 0, 0)` of `wc`. -/
def zeroCounts : Counts := ⟨0, 0, 0, 0, 0⟩

/-- One iteration of the option loop in `wc`: compute the metric, append its
right-aligned rendering plus `" "` to the format string, and record the count
in the corresponding tuple slot. -/
def wcStep (contents : String) (acc : String × Counts) (opt : WcCliOpt) :
    String × Counts :=
  match opt with
  | WcCliOpt.CountBytes =>
    let n := byteCount contents
    (acc.fst ++ padDisplay (toString n) ++ " ",
      ⟨n, acc.snd.chars, acc.snd.lines, acc.snd.maxLine, acc.snd.words⟩)
  | WcCliOpt.CountCharacters =>
    let n := charCount contents
    (acc.fst ++ padDisplay (toString n) ++ " ",
      ⟨acc.snd.bytes, n, acc.snd.lines, acc.snd.maxLine, acc.snd.words⟩)
  | WcCliOpt.CountLines =>
    let n := lineCount contents
    (acc.fst ++ padDisplay (toString n) ++ " ",
      ⟨acc.snd.bytes, acc.snd.chars, n, acc.snd.maxLine, acc.snd.words⟩)
  | WcCliOpt.MaxLineLength =>
    let n := maxLineLength contents
    (acc.fst ++ padDisplay (toString n) ++ " ",
      ⟨acc.snd.bytes, acc.snd.chars, acc.snd.lines, n, acc.snd.words⟩)
  | WcCliOpt.CountWords =>
    let n := wordCount contents
    (acc.fst ++ padDisplay (toString n) ++ " ",
      ⟨acc.snd.bytes, acc.snd.chars, acc.snd.lines, acc.snd.maxLine, n⟩)

/-- `fn wc(contents, opts) -> (String, (usize, usize, usize, usize, usize))`:
fold `wcStep` over the requested options. -/
def wc (contents : String) (opts : List WcCliOpt) : String × Counts :=
  opts.foldl (wcStep contents) ("", zeroCounts)

/-- Outcome of `fs::metadata` plus the `is_file` test: `file` is a regular
file with its contents, `dir` a directory, `other` an existing path that is
neither a regular file nor a directory. -/
inductive FsEntry where
  | file (contents : String)
  | dir
  | other
deriving DecidableEq

/-- An abstract filesystem: `none` models an `fs::metadata` error for the
path (in particular a nonexistent path). -/
def Fs : Type := String → Option FsEntry

/-- The body of the per-file loop at the end of `main`: the lines printed for
a single file source.  A metadata error prints the not-found diagnostic and no
row; a non-regular-file entry prints the is-a-directory diagnostic and counts
the empty string; a regular file is counted; the row is the format string of
`wc` followed by the label right-aligned in `FMT_DISPLAY_WIDTH` columns. -/
def processFile (fs : Fs) (opts : List WcCliOpt) (file : String) : List String :=
  match fs file with
  | some md =>
    match md with
    | FsEntry.file c => [(wc c opts).fst ++ padDisplay file]
    | _ =>
      ("ccwc: " ++ file ++ ": Is a directory") ::
        [(wc "" opts).fst ++ padDisplay file]
  | none => ["ccwc: " ++ file ++ ": No such file or directory"]

/-- `for file in files.iter() { ... }`: process every file source in order,
concatenating the printed lines. -/
def runFiles (fs : Fs) (opts : List WcCliOpt) : List String → List String
  | [] => []
  | f :: rest => processFile fs opts f ++ runFiles fs opts rest

/-- The whole counting section of `main` (after option parsing): the optional
stdin row (printed when `read_stdin || files.is_empty()`, labelled `"-"` or
`""`), followed by the per-file rows.  No other line is ever printed: in
particular the code contains no aggregate `total` row (see the `TODO` comment
at the top of `main.rs`). -/
def runMain (fs : Fs) (stdin : String) (readStdin : Bool) (files : List String)
    (opts : List WcCliOpt) : List String :=
  (if readStdin || files.isEmpty then
    [(wc stdin opts).fst ++ padDisplay (if readStdin then "-" else "")]
  else []) ++ runFiles fs opts files

/-- The NUL byte, the separator of `--files0-from` lists. -/
def nulChar : Char := Char.ofNat 0

/-- `contents.split(nul)` of `add_input_files`, as a list of strings. -/
def splitNulStr (contents : String) : List String :=
  (splitPred (fun c => c = nulChar) contents.data).map String.mk

/-- `fn add_input_files`: extend the file list with the NUL-split pieces of
the list file's contents (the reading of the list file itself is modelled at
the call site in `parseLoop`). -/
def add_input_files (contents : String) (files : List String) : List String :=
  files ++ splitNulStr contents

/-- Rust `str::starts_with`, on the character sequences. -/
def strStartsWith (s p : String) : Bool := p.data.isPrefixOf s.data

/-- The `io::read_to_string(io::stdin())` / `fs::read_to_string(input)` choice
inside `add_input_files`; `none` models the `.expect(...)` panic when the
list file cannot be read as a regular file. -/
def readFiles0From (fs : Fs) (stdin : String) (input : String) : Option String :=
  if input = "-" then some stdin
  else
    match fs input with
    | some (FsEntry.file c) => some c
    | _ => none

/-- Result of the argument loop of `main`: either the parsed state (the
metric flags in mention order with duplicates, the file list, the
explicit-stdin flag) or one of the early returns. -/
inductive ParseOutcome where
  | proceed (mentions : List WcCliOpt) (files : List String) (readStdin : Bool)
  | showHelp
  | showVersion
  | invalidOpt (arg : String)
deriving DecidableEq

/-- The argument loop of `main`, arm for arm.  `mentions` records each metric
flag occurrence in order (the source inserts it into a `HashSet`; the set's
elements are recovered by `dedupFirst`).  Returns `none` when
`add_input_files` would panic. -/
def parseLoop (fs : Fs) (stdin : String) :
    List String → List WcCliOpt → List String → Bool → Option ParseOutcome
  | [], ms, fls, rs => some (ParseOutcome.proceed ms fls rs)
  | arg :: rest, ms, fls, rs =>
    if arg = "-c" ∨ arg = "--bytes" then
      parseLoop fs stdin rest (ms ++ [WcCliOpt.CountBytes]) fls rs
    else if arg = "-m" ∨ arg = "--chars" then
      parseLoop fs stdin rest (ms ++ [WcCliOpt.CountCharacters]) fls rs
    else if arg = "-l" ∨ arg = "--lines" then
      parseLoop fs stdin rest (ms ++ [WcCliOpt.CountLines]) fls rs
    else if arg = "-L" ∨ arg = "--max-line-length" then
      parseLoop fs stdin rest (ms ++ [WcCliOpt.MaxLineLength]) fls rs
    else if arg = "-w" ∨ arg = "--words" then
      parseLoop fs stdin rest (ms ++ [WcCliOpt.CountWords]) fls rs
    else if arg = "-" then parseLoop fs stdin rest ms fls true
    else if arg = "--version" then some ParseOutcome.showVersion
    else if arg = "--help" then some ParseOutcome.showHelp
    else if strStartsWith arg "--files0-from=" then
      match readFiles0From fs stdin (String.mk (arg.data.drop 14)) with
      | some contents => parseLoop fs stdin rest ms (add_input_files contents fls) rs
      | none => none
    else if strStartsWith arg "-" then some (ParseOutcome.invalidOpt arg)
    else parseLoop fs stdin rest ms (fls ++ [arg]) rs

/-- The distinct elements held by the `HashSet` after the argument loop, in
first-seen order (what an insertion-ordered set would enumerate). -/
def dedupFirst (ms : List WcCliOpt) : List WcCliOpt :=
  ms.foldl (fun acc m => if m ∈ acc then acc else acc ++ [m]) []

/-- The banner printed by `fn version`. -/
def versionText : String :=
  "ccwc 0.1.0\nCopyright (C) 2024 <pedromiguelrodrigues2000@gmail.com>\nLicense MIT: The MIT License <https://opensource.org/license/mit>\nThis is free software: you are free to change and redistribute it.\nThe software is provided “as is”, without warranty of any kind.\n\nWritten by Pedro Rodrigues"

/-- The usage text printed by `fn help` (verbatim, including the promise of a
total line and of the fixed column order; trailing spaces of the original
raw string literal are preserved). -/
def helpText : String :=
  "ccwc - print newline, word, and byte counts for each file\n\nUsage: ccwc [OPTIONS]... [FILE]...\n   or: ccwc [OPTIONS]... --file0-from=F\n\nDescription:\n\nPrint newline, word and byte counts for each FILE, and total line\nif more than one FILE is specified. A word is a non-zero-length sequence\nof characters delimited by white space.\n\nWith no FILE or when FILE is - read standard input\n\nThe options below may be used to select which counts are printed, always \nin the following order: newline, word, character, byte, maximum line length.\n\nOptions: \n    -c, --bytes             Print the byte counts\n    -m, --chars             Print the character counts\n    -l, --lines             Print the newline counts\n        --files0-from=F     Read input from the files specified by\n                              NUL-terminated names in file F;\n                              If F is - then read names from standard input\n    -L, --max-line-length   Print the maximum display width\n    -w, --words             Print the word counts\n        --help              Display this help and exit \n        --version           Output version information and exit"

/-- `fn invalid_opt`: print the first character after the dash and a hint. -/
def invalidOptLines (opt : String) : List String :=
  ["ccwc: invalid option -- \x27" ++ String.mk ((opt.data.drop 1).take 1) ++ "\x27",
   "Try \x27ccwc --help\x27 for more information"]

/-- The whole program, as the list of printed lines.  `hashOrder` is the
iteration order of the option `HashSet` (`opts.into_iter().collect()`); the
Rust hasher is randomly seeded per process, so this order is an arbitrary
enumeration of the set and is passed as a parameter.  When no metric flag was
given the code uses the literal default vector instead.  `none` models an
aborting panic. -/
def runProgram (fs : Fs) (stdin : String) (hashOrder : List WcCliOpt)
    (args : List String) : Option (List String) :=
  match parseLoop fs stdin args [] [] false with
  | none => none
  | some ParseOutcome.showVersion => some [versionText]
  | some ParseOutcome.showHelp => some [helpText]
  | some (ParseOutcome.invalidOpt s) => some (invalidOptLines s)
  | some (ParseOutcome.proceed ms files rs) =>
    let opts :=
      if ms.isEmpty then
        [WcCliOpt.CountLines, WcCliOpt.CountWords, WcCliOpt.CountBytes]
      else hashOrder
    some (runMain fs stdin rs files opts)

/-- The metric value a single option reports, per the match arms of `wc`. -/
def metricValue (opt : WcCliOpt) (contents : String) : Nat :=
  match opt with
  | WcCliOpt.CountBytes => byteCount contents
  | WcCliOpt.CountCharacters => charCount contents
  | WcCliOpt.CountLines => lineCount contents
  | WcCliOpt.MaxLineLength => maxLineLength contents
  | WcCliOpt.CountWords => wordCount contents

/-- Modelled from the spec: the row format in which every count is rendered
right-aligned in the fixed display width, one after the other, each followed
by a space. -/
def renderRow (contents : String) : List WcCliOpt → String
  | [] => ""
  | o :: os =>
    (padDisplay (toString (metricValue o contents)) ++ " ") ++ renderRow contents os

/-- Modelled from the spec: `MaxLineLength` as the maximum over all lines of
the line's length counted in decoded characters. -/
def spec_maxLineLengthChars (s : String) : Nat :=
  ((rustLines s).map List.length).foldr max 0

/-- State machine counting the maximal non-whitespace runs of a line: the
flag says whether the scan is currently inside a run. -/
def countRunsAux : Bool → List Char → Nat
  | _, [] => 0
  | inRun, c :: cs =>
    if isRustWhitespace c then countRunsAux false cs
    else (if inRun then 0 else 1) + countRunsAux true cs

/-- Modelled from the spec: the number of maximal non-whitespace runs
(whitespace-delimited tokens) of a line. -/
def countRuns (l : List Char) : Nat := countRunsAux false l

/-- Join pieces with a separator character (left inverse of `splitPred` at
the separator, used to state that the NUL split is a genuine split). -/
def joinWith (sep : Char) : List (List Char) → List Char
  | [] => []
  | [x] => x
  | x :: y :: ys => x ++ sep :: joinWith sep (y :: ys)

/-- A filesystem with a metadata error for every path (no files needed). -/
def fsEmpty : Fs := fun _ => none

/-- A small concrete filesystem: a directory `d`, a non-regular entry `p`
(e.g. a FIFO), and a regular file `a` containing `"x\n"`. -/
def fsW : Fs := fun s =>
  if s = "d" then some FsEntry.dir
  else if s = "p" then some FsEntry.other
  else if s = "a" then some (FsEntry.file "x\n")
  else none

/-- The two-file filesystem of the spec's Scenario 2. -/
def fsAB : Fs := fun s =>
  if s = "a.txt" then some (FsEntry.file "hello world\nfoo\n")
  else if s = "b.txt" then some (FsEntry.file "bar\n")
  else none

theorem charUtf8Size_pos (c : Char) : 1 ≤ charUtf8Size c := by
  unfold charUtf8Size
  split
  · exact Nat.le_refl 1
  · split
    · omega
    · split
      · omega
      · omega

theorem byteLen_ge_length (l : List Char) : l.length ≤ byteLen l := by
  induction l with
  | nil => simp [byteLen]
  | cons c cs ih =>
    have := charUtf8Size_pos c
    simp only [byteLen, List.length_cons]
    omega

theorem charUtf8Size_ascii (c : Char) (h : c.toNat ≤ 127) : charUtf8Size c = 1 := by
  unfold charUtf8Size
  rw [if_pos]
  omega

theorem byteLen_ascii (l : List Char) (h : ∀ c ∈ l, c.toNat ≤ 127) :
    byteLen l = l.length := by
  induction l with
  | nil => rfl
  | cons c cs ih =>
    simp only [byteLen, List.length_cons]
    rw [charUtf8Size_ascii c (h c (List.mem_cons_self c cs)),
      ih (fun x hx => h x (List.mem_cons_of_mem c hx))]
    omega

/-- Claim C9: for every content string, the byte count computed by `wc` is at
least its character count, both are non-negative, and they coincide when
every character of the content is ASCII. -/
theorem bytes_ge_chars (s : String) :
    ((wc s [WcCliOpt.CountBytes, WcCliOpt.CountCharacters]).snd).chars ≤
      ((wc s [WcCliOpt.CountBytes, WcCliOpt.CountCharacters]).snd).bytes ∧
    0 ≤ ((wc s [WcCliOpt.CountBytes, WcCliOpt.CountCharacters]).snd).bytes ∧
    0 ≤ ((wc s [WcCliOpt.CountBytes, WcCliOpt.CountCharacters]).snd).chars ∧
    ((∀ c ∈ s.data, c.toNat ≤ 127) →
      ((wc s [WcCliOpt.CountBytes, WcCliOpt.CountCharacters]).snd).bytes =
        ((wc s [WcCliOpt.CountBytes, WcCliOpt.CountCharacters]).snd).chars) := by
  refine ⟨?_, Nat.zero_le _, Nat.zero_le _, ?_⟩
  · show charCount s ≤ byteCount s
    exact byteLen_ge_length s.data
  · intro h
    show byteCount s = charCount s
    exact byteLen_ascii s.data h

/-- Witness for C9 at the ASCII input `"abc"`. -/
theorem bytes_ge_chars_witness :
    (∀ c ∈ ("abc" : String).data, c.toNat ≤ 127) ∧
    ((wc "abc" [WcCliOpt.CountBytes, WcCliOpt.CountCharacters]).snd).bytes =
      ((wc "abc" [WcCliOpt.CountBytes, WcCliOpt.CountCharacters]).snd).chars :=
  ⟨by decide, (bytes_ge_chars "abc").2.2.2 (by decide)⟩

theorem foldl_max_eq (f : List Char → Nat) :
    ∀ (l : List (List Char)) (a : Nat),
      l.foldl (fun mx line => max (f line) mx) a = max a ((l.map f).foldr max 0) := by
  intro l
  induction l with
  | nil => intro a; simp
  | cons x xs ih =>
    intro a
    simp only [List.foldl_cons, List.map_cons, List.foldr_cons]
    rw [ih (max (f x) a), Nat.max_comm (f x) a, Nat.max_assoc]

/-- Claim C4, counterexample: on the one-line content `"é"` the code's
`MaxLineLength` is 2 (the UTF-8 byte length of the line), not the character
length 1 demanded by the claim. -/
theorem maxLineLength_chars_counterexample :
    ((wc "é" [WcCliOpt.MaxLineLength]).snd).maxLine = 2 ∧
    spec_maxLineLengthChars "é" = 1 ∧
    ((wc "é" [WcCliOpt.MaxLineLength]).snd).maxLine ≠ spec_maxLineLengthChars "é" := by
  refine ⟨by decide, by decide, by decide⟩

/-- Claim C4, amended: the `MaxLineLength` metric equals the maximum over all
lines of the line's length counted in UTF-8 bytes (`line.len()` in Rust), and
it is 0 when the content has no lines. -/
theorem maxLineLength_is_byte_max (s : String) :
    ((wc s [WcCliOpt.MaxLineLength]).snd).maxLine =
      ((rustLines s).map byteLen).foldr max 0 ∧
    ((wc "" [WcCliOpt.MaxLineLength]).snd).maxLine = 0 := by
  constructor
  · show maxLineLength s = ((rustLines s).map byteLen).foldr max 0
    unfold maxLineLength
    rw [foldl_max_eq byteLen (rustLines s) 0]
    exact Nat.zero_max _
  · decide

theorem padDisplay_length (s : String) (h : s.length ≤ FMT_DISPLAY_WIDTH) :
    (padDisplay s).length = FMT_DISPLAY_WIDTH := by
  unfold padDisplay
  rw [String.length_append]
  show (List.replicate (FMT_DISPLAY_WIDTH - s.length) ' ').length + s.length =
    FMT_DISPLAY_WIDTH
  rw [List.length_replicate]
  omega

theorem wc_fst_fold (contents : String) :
    ∀ (opts : List WcCliOpt) (fmt : String) (counts : Counts),
      (opts.foldl (wcStep contents) (fmt, counts)).fst = fmt ++ renderRow contents opts := by
  intro opts
  induction opts with
  | nil => intro fmt counts; exact (String.append_empty fmt).symm
  | cons o os ih =>
    intro fmt counts
    have hstep : wcStep contents (fmt, counts) o =
        (fmt ++ padDisplay (toString (metricValue o contents)) ++ " ",
          (wcStep contents (fmt, counts) o).snd) := by
      cases o <;> rfl
    simp only [List.foldl_cons]
    rw [hstep, ih]
    show fmt ++ padDisplay (toString (metricValue o contents)) ++ " " ++
        renderRow contents os = fmt ++ renderRow contents (o :: os)
    show fmt ++ padDisplay (toString (metricValue o contents)) ++ " " ++
        renderRow contents os =
      fmt ++ (padDisplay (toString (metricValue o contents)) ++ " " ++ renderRow contents os)
    simp only [String.append_assoc]

/-- Claim C5, counterexample: in a run with a single file source and a single
requested metric the count is still rendered right-aligned in 6 columns
(`"     1"`), not without padding as the claim states. -/
theorem width_collapse_counterexample :
    runFiles fsW [WcCliOpt.CountLines] ["a"] = ["     1      a"] ∧
    runFiles fsW [WcCliOpt.CountLines] ["a"] ≠ ["1 a"] := by
  refine ⟨by decide, by decide⟩

/-- Claim C5, amended: every count is always rendered right-aligned in the
fixed width `FMT_DISPLAY_WIDTH = 6` followed by a space, regardless of how
many metrics are requested or how many sources are processed (the format
string of `wc` never depends on either), and a rendered count of at most 6
digits occupies exactly 6 columns. -/
theorem wc_fmt_always_width6 (contents : String) (opts : List WcCliOpt) :
    (wc contents opts).fst = renderRow contents opts ∧
    (∀ n : Nat, (toString n).length ≤ FMT_DISPLAY_WIDTH →
      (padDisplay (toString n)).length = FMT_DISPLAY_WIDTH) := by
  constructor
  · show (opts.foldl (wcStep contents) ("", zeroCounts)).fst = renderRow contents opts
    rw [wc_fst_fold contents opts "" zeroCounts]
    exact String.empty_append _
  · intro n hn
    exact padDisplay_length (toString n) hn

/-- Witness for C5's amended theorem at a concrete content, option list and
count. -/
theorem wc_fmt_always_width6_witness :
    (wc "x\n" [WcCliOpt.CountLines]).fst = renderRow "x\n" [WcCliOpt.CountLines] ∧
    ((toString 1).length ≤ FMT_DISPLAY_WIDTH ∧
      (padDisplay (toString 1)).length = FMT_DISPLAY_WIDTH) :=
  ⟨(wc_fmt_always_width6 "x\n" [WcCliOpt.CountLines]).1,
    ⟨by decide, (wc_fmt_always_width6 "x\n" [WcCliOpt.CountLines]).2 1 (by decide)⟩⟩

theorem splitPred_ne_nil (p : Char → Bool) (l : List Char) : splitPred p l ≠ [] := by
  cases l with
  | nil => simp [splitPred]
  | cons c cs =>
    simp only [splitPred]
    split
    · simp
    · cases h : splitPred p cs with
      | nil => simp
      | cons q qs => simp

theorem countRunsAux_eq_filter (l : List Char) :
    countRunsAux true l =
      (((splitPred isRustWhitespace l).tail).filter (fun x => !x.isEmpty)).length ∧
    countRunsAux false l =
      ((splitPred isRustWhitespace l).filter (fun x => !x.isEmpty)).length := by
  induction l with
  | nil => exact ⟨rfl, rfl⟩
  | cons c cs ih =>
    by_cases hc : isRustWhitespace c = true
    · constructor
      · simp [countRunsAux, hc, splitPred]
        exact ih.2
      · simp [countRunsAux, hc, splitPred]
        exact ih.2
    · cases hr : splitPred isRustWhitespace cs with
      | nil => exact absurd hr (splitPred_ne_nil _ _)
      | cons q qs =>
        have h1 := ih.1
        rw [hr] at h1
        simp only [List.tail_cons] at h1
        constructor
        · simp [countRunsAux, hc, splitPred, hr]
          exact h1
        · simp [countRunsAux, hc, splitPred, hr, h1]
          omega

theorem splitWhitespaceCount_eq_countRuns (l : List Char) :
    splitWhitespaceCount l = countRuns l :=
  ((countRunsAux_eq_filter l).2).symm

theorem foldl_add_eq (f : List Char → Nat) :
    ∀ (l : List (List Char)) (a : Nat),
      l.foldl (fun acc line => acc + f line) a = a + (l.map f).sum := by
  intro l
  induction l with
  | nil => intro a; simp
  | cons x xs ih =>
    intro a
    simp only [List.foldl_cons, List.map_cons, List.sum_cons]
    rw [ih]
    omega

/-- Claim C8: the `CountWords` metric equals the sum, over all lines, of the
number of maximal non-whitespace runs (whitespace-delimited tokens) of the
line, and the word count of the empty string is 0. -/
theorem wordCount_is_token_sum (s : String) :
    wordCount s = ((rustLines s).map countRuns).sum ∧ wordCount "" = 0 := by
  constructor
  · unfold wordCount
    rw [foldl_add_eq splitWhitespaceCount (rustLines s) 0]
    rw [show splitWhitespaceCount = countRuns from funext splitWhitespaceCount_eq_countRuns]
    exact Nat.zero_add _
  · decide

theorem splitPred_cons (p : Char → Bool) (c : Char) (cs : List Char) :
    splitPred p (c :: cs) =
      if p c then [] :: splitPred p cs
      else
        match splitPred p cs with
        | [] => [[c]]
        | q :: qs => (c :: q) :: qs := rfl

theorem joinWith_splitPred (sep : Char) (l : List Char) :
    joinWith sep (splitPred (fun c => c = sep) l) = l := by
  induction l with
  | nil => rfl
  | cons c cs ih =>
    rw [splitPred_cons]
    by_cases hc : c = sep
    · cases hr : splitPred (fun c => c = sep) cs with
      | nil => exact absurd hr (splitPred_ne_nil _ _)
      | cons q qs =>
        rw [hr] at ih
        rw [if_pos (by simp [hc])]
        show sep :: joinWith sep (q :: qs) = c :: cs
        rw [ih, hc]
    · cases hr : splitPred (fun c => c = sep) cs with
      | nil => exact absurd hr (splitPred_ne_nil _ _)
      | cons q qs =>
        rw [hr] at ih
        rw [if_neg (by simp [hc])]
        cases qs with
        | nil =>
          show c :: q = c :: cs
          rw [show q = cs from ih]
        | cons y ys =>
          show c :: (q ++ sep :: joinWith sep (y :: ys)) = c :: cs
          rw [show q ++ sep :: joinWith sep (y :: ys) = cs from ih]

theorem splitPred_append_sep (p : Char → Bool) (sep : Char) (hsep : p sep = true)
    (l : List Char) : splitPred p (l ++ [sep]) = splitPred p l ++ [[]] := by
  induction l with
  | nil =>
    show splitPred p [sep] = [[]] ++ [[]]
    rw [splitPred_cons, if_pos hsep]
    rfl
  | cons c cs ih =>
    show splitPred p (c :: (cs ++ [sep])) = splitPred p (c :: cs) ++ [[]]
    rw [splitPred_cons, splitPred_cons, ih]
    by_cases hc : p c = true
    · rw [if_pos hc, if_pos hc]
      rfl
    · rw [if_neg hc, if_neg hc]
      cases hr : splitPred p cs with
      | nil => exact absurd hr (splitPred_ne_nil _ _)
      | cons q qs => rfl

/-- Claim C7: `add_input_files` appends to the file list exactly the pieces
of the list file's content split on NUL, in order; the split is a genuine
split (joining the pieces with NUL restores the content), a trailing NUL
yields a trailing empty piece, and on the spec's Scenario 5 content
`"a.txt\x00b.txt\x00"` the resulting list is `["a.txt", "b.txt", ""]`. -/
theorem files0_from_split (contents : String) (files : List String) :
    add_input_files contents files = files ++ splitNulStr contents ∧
    joinWith nulChar (splitPred (fun c => c = nulChar) contents.data) =
      contents.data ∧
    splitPred (fun c => c = nulChar) (contents.data ++ [nulChar]) =
      splitPred (fun c => c = nulChar) contents.data ++ [[]] ∧
    add_input_files "a.txt\x00b.txt\x00" [] = ["a.txt", "b.txt", ""] := by
  refine ⟨rfl, joinWith_splitPred nulChar contents.data,
    splitPred_append_sep _ nulChar (by decide) contents.data, by decide⟩

theorem wcStep_empty_snd (fmtc : String × Counts) (o : WcCliOpt)
    (h : fmtc.snd = zeroCounts) : (wcStep "" fmtc o).snd = zeroCounts := by
  cases o with
  | CountBytes =>
    show (⟨byteCount "", fmtc.snd.chars, fmtc.snd.lines, fmtc.snd.maxLine,
      fmtc.snd.words⟩ : Counts) = zeroCounts
    rw [h]
    rfl
  | CountCharacters =>
    show (⟨fmtc.snd.bytes, charCount "", fmtc.snd.lines, fmtc.snd.maxLine,
      fmtc.snd.words⟩ : Counts) = zeroCounts
    rw [h]
    rfl
  | CountLines =>
    show (⟨fmtc.snd.bytes, fmtc.snd.chars, lineCount "", fmtc.snd.maxLine,
      fmtc.snd.words⟩ : Counts) = zeroCounts
    rw [h]
    rfl
  | MaxLineLength =>
    show (⟨fmtc.snd.bytes, fmtc.snd.chars, fmtc.snd.lines, maxLineLength "",
      fmtc.snd.words⟩ : Counts) = zeroCounts
    rw [h]
    rfl
  | CountWords =>
    show (⟨fmtc.snd.bytes, fmtc.snd.chars, fmtc.snd.lines, fmtc.snd.maxLine,
      wordCount ""⟩ : Counts) = zeroCounts
    rw [h]
    rfl

theorem wc_empty_counts (opts : List WcCliOpt) : (wc "" opts).snd = zeroCounts := by
  suffices h : ∀ (os : List WcCliOpt) (fmtc : String × Counts),
      fmtc.snd = zeroCounts → (os.foldl (wcStep "") fmtc).snd = zeroCounts from
    h opts ("", zeroCounts) rfl
  intro os
  induction os with
  | nil => intro fmtc h; exact h
  | cons o os ih =>
    intro fmtc h
    exact ih _ (wcStep_empty_snd fmtc o h)

/-- Claim C6: a source whose metadata query fails (nonexistent path) produces
exactly the tagged not-found diagnostic and no count row, and processing
continues with the remaining sources; a directory source produces the tagged
is-a-directory diagnostic and still gets a count row computed over the empty
content, whose counts are all zero, before processing continues. -/
theorem missing_and_directory_handling (fs : Fs) (opts : List WcCliOpt)
    (f : String) (rest : List String) :
    (fs f = none →
      runFiles fs opts (f :: rest) =
        ("ccwc: " ++ f ++ ": No such file or directory") :: runFiles fs opts rest) ∧
    (fs f = some FsEntry.dir →
      runFiles fs opts (f :: rest) =
        ("ccwc: " ++ f ++ ": Is a directory") ::
          ((wc "" opts).fst ++ padDisplay f) :: runFiles fs opts rest ∧
      (wc "" opts).snd = zeroCounts) := by
  constructor
  · intro h
    simp [runFiles, processFile, h]
  · intro h
    exact ⟨by simp [runFiles, processFile, h], wc_empty_counts opts⟩

/-- Witness for C6 on a concrete filesystem: a nonexistent path and a
directory. -/
theorem missing_and_directory_handling_witness :
    (runFiles fsW [WcCliOpt.CountLines] ["missing"] =
      ("ccwc: " ++ "missing" ++ ": No such file or directory") ::
        runFiles fsW [WcCliOpt.CountLines] []) ∧
    (runFiles fsW [WcCliOpt.CountLines] ["d"] =
      ("ccwc: " ++ "d" ++ ": Is a directory") ::
        ((wc "" [WcCliOpt.CountLines]).fst ++ padDisplay "d") ::
          runFiles fsW [WcCliOpt.CountLines] [] ∧
      (wc "" [WcCliOpt.CountLines]).snd = zeroCounts) :=
  ⟨(missing_and_directory_handling fsW [WcCliOpt.CountLines] "missing" []).1 rfl,
    (missing_and_directory_handling fsW [WcCliOpt.CountLines] "d" []).2 rfl⟩

/-- Claim C10: a source that exists but is neither a regular file nor a
directory (FIFO, device node, ...) takes the same branch as a directory,
because the code only tests `metadata.is_file()`: it gets the
is-a-directory diagnostic and a zero-valued count row, and processing
continues. -/
theorem non_regular_source_zero_row (fs : Fs) (opts : List WcCliOpt)
    (f : String) (rest : List String) (h : fs f = some FsEntry.other) :
    runFiles fs opts (f :: rest) =
      ("ccwc: " ++ f ++ ": Is a directory") ::
        ((wc "" opts).fst ++ padDisplay f) :: runFiles fs opts rest ∧
    (wc "" opts).snd = zeroCounts :=
  ⟨by simp [runFiles, processFile, h], wc_empty_counts opts⟩

/-- Witness for C10 on the concrete non-regular entry `p` of `fsW`. -/
theorem non_regular_source_zero_row_witness :
    runFiles fsW [WcCliOpt.CountLines] ["p"] =
      ("ccwc: " ++ "p" ++ ": Is a directory") ::
        ((wc "" [WcCliOpt.CountLines]).fst ++ padDisplay "p") ::
          runFiles fsW [WcCliOpt.CountLines] [] ∧
    (wc "" [WcCliOpt.CountLines]).snd = zeroCounts :=
  non_regular_source_zero_row fsW [WcCliOpt.CountLines] "p" [] rfl

/-- Claim C1: on the spec's own Scenario 2 (two readable files, default
metrics) the program prints exactly the two per-file rows and no `total` row
at all — the aggregate-total feature is absent from the code (its `TODO`
comment and its help text promise it). -/
theorem no_total_row :
    runMain fsAB "" false ["a.txt", "b.txt"]
        [WcCliOpt.CountLines, WcCliOpt.CountWords, WcCliOpt.CountBytes] =
      ["     2      3     16  a.txt", "     1      1      4  b.txt"] ∧
    (runMain fsAB "" false ["a.txt", "b.txt"]
        [WcCliOpt.CountLines, WcCliOpt.CountWords, WcCliOpt.CountBytes]).all
      (fun l => !(("total" : String).data.isSuffixOf l.data)) = true := by
  refine ⟨by decide, by decide⟩

/-- Claim C2: the parsed flag mentions of `-w -l -w` are
`[CountWords, CountLines, CountWords]`, whose first-seen deduplication is
`[CountWords, CountLines]`; but the column order the code prints is the
`HashSet` iteration order, and the order `[CountLines, CountWords]` — a
permutation of the set's elements, hence a possible iteration order — makes
the program print different columns than the first-seen order would.  The
code therefore does not guarantee first-seen column order. -/
theorem column_order_not_first_seen :
    parseLoop fsEmpty "x y\n" ["-w", "-l", "-w"] [] [] false =
      some (ParseOutcome.proceed
        [WcCliOpt.CountWords, WcCliOpt.CountLines, WcCliOpt.CountWords] [] false) ∧
    dedupFirst [WcCliOpt.CountWords, WcCliOpt.CountLines, WcCliOpt.CountWords] =
      [WcCliOpt.CountWords, WcCliOpt.CountLines] ∧
    List.Perm [WcCliOpt.CountLines, WcCliOpt.CountWords]
      (dedupFirst [WcCliOpt.CountWords, WcCliOpt.CountLines, WcCliOpt.CountWords]) ∧
    runProgram fsEmpty "x y\n" [WcCliOpt.CountLines, WcCliOpt.CountWords]
        ["-w", "-l", "-w"] ≠
      runProgram fsEmpty "x y\n"
        (dedupFirst [WcCliOpt.CountWords, WcCliOpt.CountLines, WcCliOpt.CountWords])
        ["-w", "-l", "-w"] := by
  refine ⟨by decide, by decide, by decide, by decide⟩

/-- Claim C3: with fixed arguments `-l -w` and fixed stdin content, the
program's output is a function of the `HashSet` iteration order (randomly
seeded per process): the two orders `[CountLines, CountWords]` and
`[CountWords, CountLines]` are both permutations of the parsed option set,
yet they produce different outputs, so two runs need not print identical
bytes. -/
theorem output_depends_on_hash_order :
    parseLoop fsEmpty "x y\n" ["-l", "-w"] [] [] false =
      some (ParseOutcome.proceed [WcCliOpt.CountLines, WcCliOpt.CountWords] [] false) ∧
    List.Perm [WcCliOpt.CountLines, WcCliOpt.CountWords]
      (dedupFirst [WcCliOpt.CountLines, WcCliOpt.CountWords]) ∧
    List.Perm [WcCliOpt.CountWords, WcCliOpt.CountLines]
      (dedupFirst [WcCliOpt.CountLines, WcCliOpt.CountWords]) ∧
    runProgram fsEmpty "x y\n" [WcCliOpt.CountLines, WcCliOpt.CountWords]
        ["-l", "-w"] ≠
      runProgram fsEmpty "x y\n" [WcCliOpt.CountWords, WcCliOpt.CountLines]
        ["-l", "-w"] := by
  refine ⟨by decide, by decide, by decide, by decide⟩

end Ccwc
